import Mathlib

/-!
Verification of the stalker repository's Shot cut-range reconciler
(`src/stalker/models/shot.py`) and the User / Shot field validators
(`src/stalker/models/user.py`, `src/stalker/models/shot.py`) against the
natural-language specification.

Python strings are modelled as `List Char`; Python `None`-able integers as
`Option Int`; dynamically-typed setter arguments as small inductive types
(`PyVal`, `PyStrVal`, `PyAnyVal`, `SeqVal`) with a constructor for values
of the wrong runtime type.  Python exceptions are modelled with `Except`;
`PyErr` distinguishes `TypeError` from `ValueError`.
-/

/-- The two error kinds raised by the validators: Python `TypeError` and
`ValueError`, each carrying the message text. -/
inductive PyErr where
  | typeError (msg : String)
  | valueError (msg : String)
deriving DecidableEq, Repr

/-- A dynamically-typed Python value passed to one of the cut-field setters:
an `int`, `None`, or a value of any other runtime type. -/
inductive PyVal where
  | vint (n : Int)
  | vnone
  | vother
deriving DecidableEq, Repr

/-- A dynamically-typed Python value passed to a string-valued field:
a text value or a value of any other runtime type. -/
inductive PyStrVal where
  | vstr (s : List Char)
  | vother
deriving DecidableEq

/-- The stored cut fields of a `Shot` instance: `_cut_in`, `_cut_duration`
and `_cut_out`, each an `int` or `None` (`shot.py` lines 142-144 assign the
raw constructor arguments before reconciliation, so any of them can be
`None` transiently). -/
structure ShotCut where
  cutIn : Option Int
  cutDuration : Option Int
  cutOut : Option Int
deriving DecidableEq, Repr

/-- Embedding of `Shot._validate_cut_in` (`shot.py` 238-246): accept `None`
or an `int`, raise `TypeError` otherwise. -/
def validateCutIn : PyVal → Except PyErr (Option Int)
  | .vint n => .ok (some n)
  | .vnone => .ok none
  | .vother => .error (.typeError "cut_in should be an instance of int")

/-- Embedding of `Shot._validate_cut_duration` (`shot.py` 228-236): accept
`None` or an `int`, raise `TypeError` otherwise. -/
def validateCutDuration : PyVal → Except PyErr (Option Int)
  | .vint n => .ok (some n)
  | .vnone => .ok none
  | .vother => .error (.typeError "cut_duration should be an instance of int")

/-- Embedding of `Shot._validate_cut_out` (`shot.py` 248-256): accept `None`
or an `int`, raise `TypeError` otherwise. -/
def validateCutOut : PyVal → Except PyErr (Option Int)
  | .vint n => .ok (some n)
  | .vnone => .ok none
  | .vother => .error (.typeError "cut_out should be an instance of int")

/-- The arithmetic part of `Shot._update_cut_info` (`shot.py` 189-202),
run after the three validators have produced `int`-or-`None` values:
default `cut_in` to 1 when `None`; when `cut_out` is present and
`cut_in > cut_out`, reset `cut_duration` to 1; when `cut_duration` is
`None` or `<= 0`, reset it to 1; finally store
`cut_out = cut_in + cut_duration - 1`. -/
def reconcile (cutIn cutDuration cutOut : Option Int) : ShotCut :=
  let ci : Int :=
    match cutIn with
    | none => 1
    | some n => n
  let cd0 : Option Int :=
    match cutOut with
    | some co => if ci > co then some 1 else cutDuration
    | none => cutDuration
  let cd : Int :=
    match cd0 with
    | none => 1
    | some d => if d ≤ 0 then 1 else d
  { cutIn := some ci, cutDuration := some cd, cutOut := some (ci + cd - 1) }

/-- Embedding of `Shot._update_cut_info` (`shot.py` 180-202) as a state
transformer.  The three validator calls are assignments executed in order
(`self._cut_in = ...`, `self._cut_duration = ...`, `self._cut_out = ...`),
so when a validator raises, the fields already assigned keep their new
values; the error therefore carries the state at the point of the raise. -/
def updateCutInfo (s : ShotCut) (cutIn cutDuration cutOut : PyVal) :
    Except (PyErr × ShotCut) ShotCut :=
  match validateCutIn cutIn with
  | .error e => .error (e, s)
  | .ok ciV =>
    let s1 := { s with cutIn := ciV }
    match validateCutDuration cutDuration with
    | .error e => .error (e, s1)
    | .ok cdV =>
      let s2 := { s1 with cutDuration := cdV }
      match validateCutOut cutOut with
      | .error e => .error (e, s2)
      | .ok coV => .ok (reconcile ciV cdV coV)

/-- View a stored `int`-or-`None` field as the Python value the setters pass
back into `_update_cut_info`. -/
def optToPy : Option Int → PyVal
  | none => .vnone
  | some n => .vint n

/-- Embedding of `Shot._cut_in_setter` (`shot.py` 327-328): reconcile the
new value with the current `_cut_duration` and `_cut_out`. -/
def cutInSetter (s : ShotCut) (v : PyVal) : Except (PyErr × ShotCut) ShotCut :=
  updateCutInfo s v (optToPy s.cutDuration) (optToPy s.cutOut)

/-- Embedding of `Shot._cut_duration_setter` (`shot.py` 311-312). -/
def cutDurationSetter (s : ShotCut) (v : PyVal) :
    Except (PyErr × ShotCut) ShotCut :=
  updateCutInfo s (optToPy s.cutIn) v (optToPy s.cutOut)

/-- Embedding of `Shot._cut_out_setter` (`shot.py` 346-347). -/
def cutOutSetter (s : ShotCut) (v : PyVal) : Except (PyErr × ShotCut) ShotCut :=
  updateCutInfo s (optToPy s.cutIn) (optToPy s.cutDuration) v

/-- Embedding of `Shot.__init_on_load__` (`shot.py` 153-162): force
`_cut_duration` to `None`, then reconcile from the persisted `_cut_in` and
`_cut_out`. -/
def initOnLoad (s : ShotCut) : Except (PyErr × ShotCut) ShotCut :=
  let s0 : ShotCut := { s with cutDuration := none }
  updateCutInfo s0 (optToPy s0.cutIn) (optToPy s0.cutDuration) (optToPy s0.cutOut)

/-- Python `str.split` with a single-character separator
(`email_in.split("@")`, `user.py` line 405), on strings modelled as
`List Char`.  As in Python, `"".split("@") = [""]` and the number of parts
is one more than the number of separator occurrences. -/
def pySplit (sep : Char) : List Char → List (List Char)
  | [] => [[]]
  | c :: rest =>
    match pySplit sep rest with
    | [] => [[]]
    | p :: ps => if c = sep then [] :: p :: ps else (c :: p) :: ps

/-- Embedding of `User._validate_email_format` (`user.py` 400-425): split
on `"@"`; more than two parts, fewer than two parts, or an empty part
before or after the sign raise `ValueError`; otherwise the input is
returned unchanged. -/
def validateEmailFormat (l : List Char) : Except PyErr (List Char) :=
  let splits := pySplit '@' l
  if splits.length > 2 then
    .error (.valueError "check the email formatting, there are more than one @ sign")
  else if splits.length < 2 then
    .error (.valueError "check the email formatting, there are no @ sign")
  else if splits.getD 0 [] = [] then
    .error (.valueError "check the email formatting, the name part is missing")
  else if splits.getD 1 [] = [] then
    .error (.valueError "check the email formatting, the domain part is missing")
  else .ok l

/-- Embedding of `User._validate_email` (`user.py` 386-398): `TypeError`
unless the value is text, then the format check. -/
def validateEmail : PyStrVal → Except PyErr (List Char)
  | .vstr s => validateEmailFormat s
  | .vother => .error (.typeError "email should be an instance of string or unicode")

/-- The whitespace characters stripped by Python `str.strip()`. -/
def pyIsSpaceChar (c : Char) : Bool :=
  c = ' ' || c = '\t' || c = '\n' || c = '\r' || c = '\x0b' || c = '\x0c'

/-- Python `str.strip()`: drop whitespace from both ends. -/
def pyStrip (l : List Char) : List Char :=
  ((l.dropWhile pyIsSpaceChar).reverse.dropWhile pyIsSpaceChar).reverse

/-- Any Python value as seen by `str()`-coercing code: either text, or a
non-text value together with the text that `str()` renders it as (every
Python object has such a rendering). -/
inductive PyAnyVal where
  | vstr (s : List Char)
  | vother (rendered : List Char)
deriving DecidableEq

/-- Python `str()` coercion (`name = str(name)`, `user.py` line 499): text
passes through unchanged, any other value becomes its textual rendering. -/
def pyStr : PyAnyVal → List Char
  | .vstr s => s
  | .vother rendered => rendered

/-- Embedding of `User._format_name` (`user.py` 494-516): coerce the value
to text with `str()`, strip surrounding whitespace, remove every space,
lowercase, drop every character not matched by the regex class
`[\(a-zA-Z0-9)]` (which keeps letters, digits and the two parenthesis
characters), then drop the leading run of digits. -/
def formatName (v : PyAnyVal) : List Char :=
  let name := pyStr v
  let stripped := pyStrip name
  let noSpaces := stripped.filter (fun c => c != ' ')
  let lowered := noSpaces.map Char.toLower
  let legal := lowered.filter (fun c => c = '(' || c.isAlpha || c.isDigit || c = ')')
  legal.dropWhile Char.isDigit

/-- The fields written by `User._validate_name`: the stored name, the
derived nice name and the derived code. -/
structure UserNameState where
  name : List Char
  niceName : List Char
  code : List Char
deriving DecidableEq

/-- Modelled from the spec: embedding of `User._validate_name` (`user.py`
350-367), which stores the formatted name and, as side effects, sets the
derived nice name and the code.  The two formatters it calls are not
defined under `src/`: `_format_login_name` is identified by the spec and
the claim with the formatting pipeline `_format_name` (`user.py` 494-516,
embedded above as `formatName`), and `_format_nice_name` is described by
the spec as producing the same value as the stored name. -/
def validateName (v : PyAnyVal) : UserNameState :=
  let name := formatName v
  { name := name, niceName := name, code := name }

/-- The name normalization exactly as claim C8 words it: coerce the value
to text, strip surrounding whitespace, remove spaces, lowercase, strip ALL
non-alphanumeric characters, then strip leading digits. -/
def specFormatNameClaimed (v : PyAnyVal) : List Char :=
  ((((pyStrip (pyStr v)).filter (fun c => c != ' ')).map Char.toLower).filter
    (fun c => c.isAlpha || c.isDigit)).dropWhile Char.isDigit

/-- The name normalization as amended: characters that are neither
alphanumeric nor one of the two parenthesis characters are stripped (the
regex class in the source keeps `(` and `)`); all other steps, including
the `str()` coercion, are as the claim words them. -/
def specFormatNameAmended (v : PyAnyVal) : List Char :=
  ((((pyStrip (pyStr v)).filter (fun c => c != ' ')).map Char.toLower).filter
    (fun c => c.isAlpha || c.isDigit || c = '(' || c = ')')).dropWhile Char.isDigit

/-- A Shot as seen by the sequence validator: only its `code` matters. -/
structure ShotRec where
  code : List Char
deriving DecidableEq

/-- A Sequence as seen by the sequence validator: its member shots. -/
structure SequenceRec where
  shots : List ShotRec
deriving DecidableEq

/-- A dynamically-typed value assigned to `Shot.sequence`. -/
inductive SeqVal where
  | vseq (s : SequenceRec)
  | vother
deriving DecidableEq

/-- Embedding of `Shot._validate_sequence` (`shot.py` 258-273): `TypeError`
unless the value is a `Sequence`; then scan the sequence shots and raise
`ValueError` when one has this shot's `code`; otherwise return the
sequence. -/
def validateSequence (code : List Char) : SeqVal → Except PyErr SequenceRec
  | .vother =>
    .error (.typeError "the sequence should be an instance of stalker.core.models.Sequence instance")
  | .vseq s =>
    if s.shots.any (fun sh => sh.code = code) then
      .error (.valueError "the given sequence already has a shot with this code")
    else .ok s

/-- One step of Python `str.title()`: the boolean records whether the
previous character was alphabetic. -/
def titleAux : Bool → List Char → List Char
  | _, [] => []
  | prevAlpha, c :: rest =>
    if c.isAlpha then
      (if prevAlpha then c.toLower else c.toUpper) :: titleAux true rest
    else
      c :: titleAux false rest

/-- Python `str.title()` on strings modelled as `List Char`. -/
def pyTitle (l : List Char) : List Char := titleAux false l

/-- Embedding of `User._validate_initials` (`user.py` 448-462): an empty
value is replaced by `re.sub("[^A-Z]+", "", first.title() + " " +
last.title())` lowercased; a non-empty value is stored as-is. -/
def validateInitials (firstName lastName : List Char) (initialsIn : List Char) :
    List Char :=
  if initialsIn = [] then
    ((pyTitle firstName ++ ' ' :: pyTitle lastName).filter Char.isUpper).map
      Char.toLower
  else initialsIn

/-- Every successful run of the reconciler arithmetic produces a fully
populated triple with `cut_out = cut_in + cut_duration - 1` and a positive
duration. -/
theorem reconcile_spec (ci cd co : Option Int) :
    ∃ a d : Int, reconcile ci cd co = ⟨some a, some d, some (a + d - 1)⟩ ∧ 1 ≤ d := by
  unfold reconcile
  rcases ci with _ | a <;> rcases co with _ | b <;> rcases cd with _ | d <;>
    dsimp only <;> repeat' split
  all_goals exact ⟨_, _, rfl, by omega⟩

/-- Claim C1: every invocation of `_update_cut_info` whose arguments pass
the integer-or-null type check leaves the stored triple with
`cut_out = cut_in + cut_duration - 1` and `cut_duration >= 1`. -/
theorem cut_update_invariant (s s' : ShotCut) (ci cd co : PyVal)
    (h : updateCutInfo s ci cd co = .ok s') :
    ∃ a d : Int, s'.cutIn = some a ∧ s'.cutDuration = some d ∧
      s'.cutOut = some (a + d - 1) ∧ 1 ≤ d := by
  rcases ci with n | _ | _ <;> rcases cd with m | _ | _ <;> rcases co with k | _ | _ <;>
    simp only [updateCutInfo, validateCutIn, validateCutDuration, validateCutOut,
      Except.ok.injEq, reduceCtorEq] at h <;>
    subst h <;>
    obtain ⟨a, d, hx, hd⟩ := reconcile_spec _ _ _ <;>
    exact ⟨a, d, by rw [hx], by rw [hx], by rw [hx], hd⟩

theorem cut_update_invariant_witness :
    ∃ a d : Int, (ShotCut.mk (some 5) (some 1) (some 5)).cutIn = some a ∧
      (ShotCut.mk (some 5) (some 1) (some 5)).cutDuration = some d ∧
      (ShotCut.mk (some 5) (some 1) (some 5)).cutOut = some (a + d - 1) ∧ 1 ≤ d :=
  cut_update_invariant ⟨none, none, none⟩ ⟨some 5, some 1, some 5⟩
    (.vint 5) .vnone .vnone rfl

/-- Claim C2: the reconciler is idempotent — feeding any output triple of
the reconciler back through `_update_cut_info` reproduces that same
triple. -/
theorem reconcile_idempotent (s : ShotCut) (ci cd co : Option Int) :
    updateCutInfo s (optToPy (reconcile ci cd co).cutIn)
      (optToPy (reconcile ci cd co).cutDuration)
      (optToPy (reconcile ci cd co).cutOut) = .ok (reconcile ci cd co) := by
  obtain ⟨a, d, hx, hd⟩ := reconcile_spec ci cd co
  rw [hx]
  have h1 : ¬ (a > a + d - 1) := by omega
  have h2 : ¬ (d ≤ 0) := by omega
  simp only [optToPy, updateCutInfo, validateCutIn, validateCutDuration,
    validateCutOut, reconcile, h1, if_false, h2]

/-- Claim C3: reconciling with only `cut_in = a` supplied yields duration 1
(not the docstring's 100) and `cut_out = a`. -/
theorem reconcile_cut_in_only (a : Int) (_h : 1 ≤ a) :
    reconcile (some a) none none = ⟨some a, some 1, some a⟩ := by
  unfold reconcile
  dsimp only
  simp only [ShotCut.mk.injEq, Option.some.injEq]
  exact ⟨trivial, trivial, by omega⟩

theorem reconcile_cut_in_only_witness :
    reconcile (some 7) none none = ⟨some 7, some 1, some 7⟩ :=
  reconcile_cut_in_only 7 (by decide)

/-- Claim C4: with `a > b`, reconciling `(a, null, b)` yields duration 1
and `cut_out = a`; in general the stored `cut_out` is always recomputed as
`cut_in + cut_duration - 1` and is never the `cut_out` argument itself. -/
theorem reconcile_cut_out_recomputed (a b : Int) (h : a > b) (ci cd co : Option Int) :
    reconcile (some a) none (some b) = ⟨some a, some 1, some a⟩ ∧
    ∃ x d : Int, reconcile ci cd co = ⟨some x, some d, some (x + d - 1)⟩ := by
  constructor
  · unfold reconcile
    dsimp only
    rw [if_pos h]
    dsimp only
    rw [if_neg (by omega : ¬ (1 : Int) ≤ 0)]
    simp only [ShotCut.mk.injEq, Option.some.injEq]
    exact ⟨trivial, trivial, by omega⟩
  · obtain ⟨x, d, hx, _⟩ := reconcile_spec ci cd co
    exact ⟨x, d, hx⟩

theorem reconcile_cut_out_recomputed_witness :
    reconcile (some 5) none (some 3) = ⟨some 5, some 1, some 5⟩ ∧
    ∃ x d : Int, reconcile (some 2) (some 10) none =
      ⟨some x, some d, some (x + d - 1)⟩ :=
  reconcile_cut_out_recomputed 5 3 (by decide) (some 2) (some 10) none

theorem reconcile_none_duration (a b : Int) :
    reconcile (some a) none (some b) = ⟨some a, some 1, some a⟩ := by
  unfold reconcile
  dsimp only
  split_ifs <;>
    simp only [ShotCut.mk.injEq, Option.some.injEq, ite_self] <;>
    exact ⟨trivial, trivial, by omega⟩

/-- Claim C5: assigning a value that is neither an `int` nor `None` to any
one of the three cut fields of a reconciled Shot raises a `TypeError` and
leaves all three stored fields equal to their prior values. -/
theorem cut_setter_atomic (s : ShotCut) (a d b : Int)
    (hin : s.cutIn = some a) (hdur : s.cutDuration = some d)
    (hout : s.cutOut = some b) (_hrec : b = a + d - 1) (_hd : 1 ≤ d) :
    (∃ m, cutInSetter s .vother = .error (.typeError m, s)) ∧
    (∃ m, cutDurationSetter s .vother = .error (.typeError m, s)) ∧
    (∃ m, cutOutSetter s .vother = .error (.typeError m, s)) := by
  obtain ⟨ci, cdur, co⟩ := s
  simp only at hin hdur hout
  subst hin
  subst hdur
  subst hout
  exact ⟨⟨_, rfl⟩, ⟨_, rfl⟩, ⟨_, rfl⟩⟩

theorem cut_setter_atomic_witness :
    (∃ m, cutInSetter ⟨some 3, some 2, some 4⟩ .vother =
      .error (.typeError m, ⟨some 3, some 2, some 4⟩)) ∧
    (∃ m, cutDurationSetter ⟨some 3, some 2, some 4⟩ .vother =
      .error (.typeError m, ⟨some 3, some 2, some 4⟩)) ∧
    (∃ m, cutOutSetter ⟨some 3, some 2, some 4⟩ .vother =
      .error (.typeError m, ⟨some 3, some 2, some 4⟩)) :=
  cut_setter_atomic ⟨some 3, some 2, some 4⟩ 3 2 4 rfl rfl rfl (by decide) (by decide)

/-- Claim C6: after the on-load hook (`cut_duration` forced to `None`), any
persisted pair `(cut_in = a, cut_out = b)` reconciles to
`cut_duration = 1, cut_out = a`; the persisted `b` is discarded whenever it
differs from `a`, so a persist-then-load round trip preserves neither
`cut_out` nor `cut_duration`. -/
theorem init_on_load_resets (s : ShotCut) (a b : Int)
    (hin : s.cutIn = some a) (hout : s.cutOut = some b) :
    initOnLoad s = .ok ⟨some a, some 1, some a⟩ ∧
    (b ≠ a → s.cutOut ≠ (ShotCut.mk (some a) (some 1) (some a)).cutOut) := by
  obtain ⟨ci, cdur, co⟩ := s
  simp only at hin hout
  subst hin
  subst hout
  constructor
  · unfold initOnLoad
    dsimp only
    simp only [optToPy, updateCutInfo, validateCutIn, validateCutDuration,
      validateCutOut, reconcile_none_duration]
  · intro hne hc
    exact hne (Option.some.inj hc)

theorem init_on_load_resets_witness :
    initOnLoad ⟨some 10, some 99, some 2⟩ = .ok ⟨some 10, some 1, some 10⟩ ∧
    ((2 : Int) ≠ 10 →
      (ShotCut.mk (some 10) (some 99) (some 2)).cutOut ≠
        (ShotCut.mk (some 10) (some 1) (some 10)).cutOut) :=
  init_on_load_resets ⟨some 10, some 99, some 2⟩ 10 2 rfl rfl

theorem pySplit_ne_nil (sep : Char) (l : List Char) : pySplit sep l ≠ [] := by
  induction l with
  | nil => simp [pySplit]
  | cons c rest ih =>
    rcases h : pySplit sep rest with _ | ⟨p, ps⟩
    · exact absurd h ih
    · simp only [pySplit, h]
      split_ifs <;> simp

theorem pySplit_of_not_mem (sep : Char) (p : List Char) (h : sep ∉ p) :
    pySplit sep p = [p] := by
  induction p with
  | nil => rfl
  | cons c rest ih =>
    simp only [List.mem_cons, not_or] at h
    simp only [pySplit, ih h.2, if_neg (Ne.symm h.1)]

theorem pySplit_append (sep : Char) (p q : List Char) (hp : sep ∉ p)
    (hq : sep ∉ q) : pySplit sep (p ++ sep :: q) = [p, q] := by
  induction p with
  | nil =>
    simp [pySplit, pySplit_of_not_mem sep q hq]
  | cons c rest ih =>
    simp only [List.mem_cons, not_or] at hp
    simp only [List.cons_append, pySplit, List.append_eq, ih hp.2,
      if_neg (Ne.symm hp.1)]

theorem eq_of_pySplit_single (sep : Char) : ∀ l p : List Char,
    pySplit sep l = [p] → l = p ∧ sep ∉ p := by
  intro l
  induction l with
  | nil =>
    intro p h
    simp only [pySplit, List.cons.injEq, and_true] at h
    subst h
    exact ⟨rfl, by simp⟩
  | cons c rest ih =>
    intro p h
    rcases hr : pySplit sep rest with _ | ⟨q, qs⟩
    · exact absurd hr (pySplit_ne_nil sep rest)
    · simp only [pySplit, hr] at h
      by_cases hc : c = sep
      · rw [if_pos hc] at h
        simp at h
      · rw [if_neg hc] at h
        injection h with h1 h2
        subst h2
        obtain ⟨hr1, hr2⟩ := ih q hr
        subst hr1
        subst h1
        refine ⟨rfl, ?_⟩
        simp only [List.mem_cons, not_or]
        exact ⟨fun hh => hc hh.symm, hr2⟩

theorem eq_of_pySplit_pair (sep : Char) : ∀ l p q : List Char,
    pySplit sep l = [p, q] → l = p ++ sep :: q ∧ sep ∉ p ∧ sep ∉ q := by
  intro l
  induction l with
  | nil =>
    intro p q h
    simp [pySplit] at h
  | cons c rest ih =>
    intro p q h
    rcases hr : pySplit sep rest with _ | ⟨r, rs⟩
    · exact absurd hr (pySplit_ne_nil sep rest)
    · simp only [pySplit, hr] at h
      by_cases hc : c = sep
      · rw [if_pos hc] at h
        injection h with h1 h2
        injection h2 with h2 h3
        subst h3
        obtain ⟨hq1, hq2⟩ := eq_of_pySplit_single sep rest r hr
        subst hq1
        subst hc
        subst h1
        subst h2
        exact ⟨rfl, by simp, hq2⟩
      · rw [if_neg hc] at h
        injection h with h1 h2
        subst h2
        subst h1
        obtain ⟨hr1, hr2, hr3⟩ := ih r q hr
        subst hr1
        refine ⟨rfl, ?_, hr3⟩
        simp only [List.mem_cons, not_or]
        exact ⟨fun hh => hc hh.symm, hr2⟩

theorem validateEmailFormat_cases (l : List Char) :
    validateEmailFormat l = .ok l ∨
      ∃ m, validateEmailFormat l = .error (.valueError m) := by
  unfold validateEmailFormat
  dsimp only
  split_ifs <;> first | exact .inl rfl | exact .inr ⟨_, rfl⟩

/-- Claim C7: the email setter raises `TypeError` for non-text input; a
text value is stored unchanged exactly when it contains one `@` with
non-empty parts on both sides, and raises `ValueError` otherwise. -/
theorem email_validator_spec (l : List Char) :
    (∃ m, validateEmail .vother = .error (.typeError m)) ∧
    (validateEmail (.vstr l) = .ok l ↔
      ∃ p q, l = p ++ '@' :: q ∧ p ≠ [] ∧ q ≠ [] ∧ '@' ∉ p ∧ '@' ∉ q) ∧
    ((¬ ∃ p q, l = p ++ '@' :: q ∧ p ≠ [] ∧ q ≠ [] ∧ '@' ∉ p ∧ '@' ∉ q) →
      ∃ m, validateEmail (.vstr l) = .error (.valueError m)) := by
  have hiff : validateEmail (.vstr l) = .ok l ↔
      ∃ p q, l = p ++ '@' :: q ∧ p ≠ [] ∧ q ≠ [] ∧ '@' ∉ p ∧ '@' ∉ q := by
    constructor
    · intro h
      simp only [validateEmail, validateEmailFormat] at h
      split_ifs at h with h1 h2 h3 h4
      have hlen : (pySplit '@' l).length = 2 := by omega
      obtain ⟨p, q, hpq⟩ := List.length_eq_two.mp hlen
      rw [hpq] at h3 h4
      simp only [List.getD_cons_zero] at h3
      simp only [List.getD_cons_succ, List.getD_cons_zero] at h4
      obtain ⟨he, hnp, hnq⟩ := eq_of_pySplit_pair '@' l p q hpq
      exact ⟨p, q, he, h3, h4, hnp, hnq⟩
    · rintro ⟨p, q, rfl, hp, hq, hnp, hnq⟩
      have hs := pySplit_append '@' p q hnp hnq
      simp [validateEmail, validateEmailFormat, hs, hp, hq]
  refine ⟨⟨_, rfl⟩, hiff, fun hnex => ?_⟩
  rcases validateEmailFormat_cases l with hok | ⟨m, herr⟩
  · exact absurd (hiff.mp hok) hnex
  · exact ⟨m, herr⟩

theorem email_validator_spec_witness :
    validateEmail (.vstr ['a', '@', 'b']) = .ok ['a', '@', 'b'] ∧
    (∃ m, validateEmail (.vstr ['a', 'b']) = .error (.valueError m)) :=
  ⟨(email_validator_spec ['a', '@', 'b']).2.1.mpr
      ⟨['a'], ['b'], rfl, by decide, by decide, by decide, by decide⟩,
   (email_validator_spec ['a', 'b']).2.2 (by
      rintro ⟨p, q, he, -, -, -, -⟩
      have hm : ('@' : Char) ∈ p ++ '@' :: q :=
        List.mem_append_right p (List.mem_cons_self _ _)
      rw [← he] at hm
      exact absurd hm (by decide))⟩

theorem formatName_eq_amended_pipeline (v : PyAnyVal) :
    formatName v = specFormatNameAmended v := by
  unfold formatName specFormatNameAmended
  dsimp only
  congr 1
  apply List.filter_congr
  intro c _
  cases hp : (c = '(' : Bool) <;> cases ha : c.isAlpha <;> cases hd : c.isDigit <;>
    cases hq : (c = ')' : Bool) <;> simp [hp, ha, hd, hq]

/-- Claim C8 counterexample: on input `"a(b"` the normalization keeps the
parenthesis, so the value `_validate_name` stores is `"a(b"`, not the
claimed all-non-alphanumerics-stripped value `"ab"`. -/
theorem formatName_counterexample :
    (validateName (.vstr ['a', '(', 'b'])).name = ['a', '(', 'b'] ∧
    specFormatNameClaimed (.vstr ['a', '(', 'b']) = ['a', 'b'] ∧
    ¬ (∀ c ∈ (validateName (.vstr ['a', '(', 'b'])).name,
        c.isAlpha ∨ c.isDigit) := by decide

/-- Claim C8 as amended: for every input value, the name normalization
coerces the value to text, strips surrounding whitespace, removes spaces,
lowercases, strips every character that is neither alphanumeric nor a
parenthesis, and strips leading digits; `_validate_name` stores that
normalized result as the name, and also as the derived nice name and
code. -/
theorem formatName_amended (v : PyAnyVal) :
    (validateName v).name = specFormatNameAmended v ∧
    (validateName v).niceName = specFormatNameAmended v ∧
    (validateName v).code = specFormatNameAmended v := by
  unfold validateName
  dsimp only
  rw [formatName_eq_amended_pipeline]
  exact ⟨rfl, rfl, rfl⟩

/-- Claim C9: a non-Sequence value raises `TypeError`; a Sequence is
accepted exactly when none of its existing shots carries this shot's code,
and a duplicated code raises `ValueError`. -/
theorem sequence_validator_spec (code : List Char) (s : SequenceRec) :
    (∃ m, validateSequence code .vother = .error (.typeError m)) ∧
    (validateSequence code (.vseq s) = .ok s ↔ ∀ sh ∈ s.shots, sh.code ≠ code) ∧
    ((∃ sh ∈ s.shots, sh.code = code) →
      ∃ m, validateSequence code (.vseq s) = .error (.valueError m)) := by
  have hany : (s.shots.any (fun sh => sh.code = code) = true) ↔
      ∃ sh ∈ s.shots, sh.code = code := by
    simp [List.any_eq_true]
  refine ⟨⟨_, rfl⟩, ?_, ?_⟩
  · cases h : s.shots.any (fun sh => sh.code = code) with
    | true =>
      obtain ⟨sh, hmem, hcode⟩ := hany.mp h
      simp only [validateSequence, h, if_true]
      constructor
      · intro he
        exact absurd he (by simp)
      · intro hall
        exact absurd hcode (hall sh hmem)
    | false =>
      have hno : ∀ sh ∈ s.shots, sh.code ≠ code := by
        intro sh hmem hcode
        exact absurd (hany.mpr ⟨sh, hmem, hcode⟩) (by simp [h])
      simp only [validateSequence, h, Bool.false_eq_true, if_false]
      exact iff_of_true trivial hno
  · intro hex
    have h := hany.mpr hex
    simp only [validateSequence, h, if_true]
    exact ⟨_, rfl⟩

theorem sequence_validator_spec_witness :
    (∃ m, validateSequence ['S', 'H', '0', '1', '0']
      (.vseq ⟨[⟨['S', 'H', '0', '1', '0']⟩]⟩) = .error (.valueError m)) ∧
    validateSequence ['S', 'H', '0', '1', '0'] (.vseq ⟨[]⟩) = .ok ⟨[]⟩ :=
  ⟨(sequence_validator_spec ['S', 'H', '0', '1', '0']
      ⟨[⟨['S', 'H', '0', '1', '0']⟩]⟩).2.2
      ⟨⟨['S', 'H', '0', '1', '0']⟩, by decide, rfl⟩,
   (sequence_validator_spec ['S', 'H', '0', '1', '0'] ⟨[]⟩).2.1.mpr (by simp)⟩

/-- Claim C10: for stored (hence already title-cased) names, empty initials
are derived by concatenating first and last name, keeping only the
uppercase letters and lowercasing; a non-empty supplied value is stored
as-is. -/
theorem initials_spec (f l : List Char) (hf : pyTitle f = f) (hl : pyTitle l = l) :
    validateInitials f l [] = ((f ++ l).filter Char.isUpper).map Char.toLower ∧
    ∀ v, v ≠ [] → validateInitials f l v = v := by
  constructor
  · unfold validateInitials
    rw [if_pos rfl, hf, hl, List.filter_append, List.filter_cons_of_neg,
      ← List.filter_append]
    decide
  · intro v hv
    unfold validateInitials
    rw [if_neg hv]

theorem initials_spec_witness :
    validateInitials ['J', 'o', 'h', 'n'] ['D', 'o', 'e'] [] = ['j', 'd'] ∧
    validateInitials ['J', 'o', 'h', 'n'] ['D', 'o', 'e'] ['x'] = ['x'] :=
  ⟨((initials_spec ['J', 'o', 'h', 'n'] ['D', 'o', 'e'] (by decide) (by decide)).1).trans
      (by decide),
   (initials_spec ['J', 'o', 'h', 'n'] ['D', 'o', 'e'] (by decide) (by decide)).2
      ['x'] (by decide)⟩
